import Mathlib

/-!
Verification of the institution-resolution pipeline in
`flask_app/utils/extract_logic.py`.

Python strings are modelled as `List Char`; Python floats arising in the
matcher's scoring are modelled as exact rationals (`ℚ`); Python `None` /
`NaN` cell values and raised exceptions are modelled with `Option` and
`Except`.  I/O primitives (pandas `read_excel`, `textract`, `pytesseract`,
`pdf2image`, `mimetypes.guess_type`) are abstracted as oracle parameters;
everything downstream of them is translated directly from the source.
-/

set_option maxRecDepth 10000

abbrev Str := List Char

/-- Coerce a Lean string literal to the `List Char` model. -/
def S (s : String) : Str := s.data

/-- Python `str.lower()` (ASCII case folding, as `Char.toLower`). -/
def toLowerS (s : Str) : Str := s.map Char.toLower

/-- Helper for `splitWs`: accumulates the current (reversed) word. -/
def splitWsAux : Str → Str → List Str
  | [], cur => if cur = [] then [] else [cur.reverse]
  | c :: rest, cur =>
    if c.isWhitespace then
      if cur = [] then splitWsAux rest [] else cur.reverse :: splitWsAux rest []
    else splitWsAux rest (c :: cur)

/-- Python `str.split()` with no argument: split on whitespace runs,
dropping empty pieces. -/
def splitWs (s : Str) : List Str := splitWsAux s []

/-- Python `' '.join(words)`. -/
def joinSpace (ws : List Str) : Str := List.intercalate [' '] ws

/-- Python `s.replace('-', ' ')`. -/
def hyphenToSpace (s : Str) : Str := s.map (fun c => if c = '-' then ' ' else c)

/-- Python `s.replace('.', '')`. -/
def stripDots (s : Str) : Str := s.filter (fun c => c ≠ '.')

/-- Python `str.strip()`: drop leading and trailing whitespace. -/
def stripEnds (s : Str) : Str :=
  ((s.dropWhile Char.isWhitespace).reverse.dropWhile Char.isWhitespace).reverse

/-- Fuel-driven core of `removeAll` (the fuel starts at the length of the
string, which bounds the number of steps, keeping the recursion
structural). -/
def removeAllAux (pat : Str) : Nat → Str → Str
  | _, [] => []
  | 0, s => s
  | fuel + 1, c :: t =>
    if pat ≠ [] ∧ pat.isPrefixOf (c :: t) then
      removeAllAux pat fuel (t.drop (pat.length - 1))
    else c :: removeAllAux pat fuel t

/-- Python `s.replace(pat, '')` for a non-empty `pat`: remove every
(left-to-right, non-overlapping) occurrence of `pat`. -/
def removeAll (pat s : Str) : Str := removeAllAux pat s.length s

/-- Index of the first occurrence of `pat` as a contiguous substring of
`s`, mirroring Python `s.index(pat)` (`none` models the `ValueError`). -/
def firstOcc (pat : Str) : Str → Option Nat
  | [] => if pat = [] then some 0 else none
  | c :: t => if pat.isPrefixOf (c :: t) then some 0 else (firstOcc pat t).map (· + 1)

/-- Python `pat in s`: substring containment. -/
def containsSub (pat s : Str) : Bool := (firstOcc pat s).isSome

/-- Python `positions == sorted(positions)`: a list of naturals equals its
ascending sort exactly when it is nondecreasing, which is what this
decides. -/
def sortedLe : List Nat → Bool
  | [] => true
  | [_] => true
  | a :: b :: t => decide (a ≤ b) && sortedLe (b :: t)

/-- Python `os.path.basename`: the part of the path after the last slash. -/
def basename (p : Str) : Str := (p.reverse.takeWhile (fun c => c ≠ '/')).reverse

/-- Truthiness of a Python optional string (`None` and `""` are falsy). -/
def pyTruthyOpt : Option Str → Bool
  | none => false
  | some s => !s.isEmpty

/-- Python `a if a else b` for an optional string `a`. -/
def pyOrStr (a : Option Str) (b : Str) : Str :=
  match a with
  | some s => if s.isEmpty then b else s
  | none => b

-- ===== Data model for the pandas objects =====

/-- A cell value fetched with `row.get(col)`: the column may be absent
(Python `None`), present but empty (pandas `NaN`), or hold a string. -/
inductive PyVal where
  | noneV : PyVal
  | nan : PyVal
  | strV : Str → PyVal
deriving DecidableEq, Repr

/-- A table row: an association from column name to cell, where `none`
models a `NaN` cell. -/
abbrev Row := List (Str × Option Str)

/-- A pandas `DataFrame`: column names plus rows in their original order. -/
structure DataFrame where
  columns : List Str
  rows : List Row
deriving DecidableEq, Repr

/-- The cell of `r` at column `c` when it holds a value (`none` covers both
a `NaN` cell and an absent key). -/
def cellOf (r : Row) (c : Str) : Option Str :=
  match r.find? (fun p => p.1 = c) with
  | some p => p.2
  | none => none

/-- Python `row.get(c)` distinguishing absent column, `NaN`, and string. -/
def rowGet (r : Row) (c : Str) : PyVal :=
  match r.find? (fun p => p.1 = c) with
  | some p =>
    match p.2 with
    | some s => .strV s
    | none => .nan
  | none => .noneV

/-- Python truthiness of a cell value (`None` falsy, `NaN` truthy, a string
truthy when non-empty). -/
def pyTruthyVal : PyVal → Bool
  | .noneV => false
  | .nan => true
  | .strV s => !s.isEmpty

/-- Python `a or b` under cell-value truthiness. -/
def pyOrVal (a b : PyVal) : PyVal := if pyTruthyVal a then a else b

/-- Python `str(cell)` as used by `astype(str)`: a `NaN` cell prints as
the string `nan`. -/
def pyStrOfCell : Option Str → Str
  | some s => s
  | none => S "nan"

/-- The designated institution-name column. -/
def nameCol : Str := S "Name of Institution"

/-- Embeds `init_ranking_data` (extract_logic.py lines 11-16) after the
`read_excel` I/O: raise `ValueError` when the designated column is
missing, otherwise return the table and the candidate list
`df['Name of Institution'].dropna().str.lower().tolist()`. -/
def init_ranking_data (df : DataFrame) : Except Unit (DataFrame × List Str) :=
  if nameCol ∈ df.columns then
    .ok (df, (df.rows.filterMap (fun r => cellOf r nameCol)).map toLowerS)
  else .error ()

-- ===== Institution matcher (find_institution, lines 63-127) =====

/-- Lines 65-66: collapse whitespace runs, lower-case, turn hyphens into
spaces and delete periods. -/
def normalizeText (text : Str) : Str :=
  stripDots (hyphenToSpace (joinSpace (splitWs (toLowerS text))))

/-- Lines 75-79: the candidate name as-is and with the `dr. ` / `dr `
honorific removed (every occurrence, then stripped), all lower-cased. -/
def variations (inst : Str) : List Str :=
  [toLowerS inst,
   stripEnds (removeAll (S "dr. ") (toLowerS inst)),
   stripEnds (removeAll (S "dr ") (toLowerS inst))]

/-- Lines 81-86: a candidate is accepted by phase 1 when every
whitespace-delimited token of some variant occurs in the normalized
text. -/
def phase1Accepts (ntext inst : Str) : Bool :=
  (variations inst).any (fun v => (splitWs v).all (fun w => containsSub w ntext))

/-- Lines 94-97: the significant tokens of a candidate name (longer than
three characters). -/
def searchTerms (inst : Str) : List Str :=
  (splitWs (toLowerS inst)).filter (fun t => t.length > 3)

/-- Line 100: `match_score`, the number of significant tokens present in
the normalized text. -/
def presentCount (ntext inst : Str) : Nat :=
  ((searchTerms inst).filter (fun t => containsSub t ntext)).length

/-- The number of significant tokens of the candidate name. -/
def termsCount (inst : Str) : Nat := (searchTerms inst).length

/-- Lines 100-101: fraction of significant tokens present in the text. -/
def completenessScore (ntext inst : Str) : ℚ :=
  if termsCount inst = 0 then 0
  else (presentCount ntext inst : ℚ) / (termsCount inst : ℚ)

/-- Line 107: the list comprehension `[normalized_text.index(term) ...]`;
`none` models the `ValueError` raised when any term is absent. -/
def positionsOf (ntext : Str) : List Str → Option (List Nat)
  | [] => some []
  | t :: ts =>
    match firstOcc t ntext, positionsOf ntext ts with
    | some p, some ps => some (p :: ps)
    | _, _ => none

/-- Lines 106-111: whether the order bonus fires — every significant token
has a first occurrence (no `ValueError`) and those first occurrences are
nondecreasing. -/
def orderedFlag (ntext inst : Str) : Bool :=
  match positionsOf ntext (searchTerms inst) with
  | some ps => sortedLe ps
  | none => false

/-- Lines 103-111: the 0.3 order bonus, guarded by `if search_terms:`. -/
def orderedScore (ntext inst : Str) : ℚ :=
  if termsCount inst = 0 then 0
  else if orderedFlag ntext inst then 3 / 10 else 0

/-- Line 113: `total_score = (completeness + ordered_score) * 100`. -/
def phase2Score (ntext inst : Str) : ℚ :=
  (completenessScore ntext inst + orderedScore ntext inst) * 100

/-- Lines 89-119: the tracking loop over candidates, keeping the first
candidate with the strictly highest total score. -/
def phase2Best (ntext : Str) (l : List Str) : Option Str × ℚ :=
  l.foldl
    (fun best inst =>
      let s := phase2Score ntext inst
      if s > best.2 then (some inst, s) else best)
    (none, 0)

/-- Embeds `find_institution` (lines 63-127) on its `return_score=True`
path: phase-1 exact-variant containment (first candidate wins, score
100), else the phase-2 weighted loop with acceptance threshold 75. -/
def find_institution (text : Str) (institution_list : List Str) : Option Str × ℚ :=
  let ntext := normalizeText text
  match institution_list.find? (fun inst => phase1Accepts ntext inst) with
  | some inst => (some inst, 100)
  | none =>
    let best := phase2Best ntext institution_list
    if best.2 ≥ 75 then best else (none, best.2)

/-- Modelled from the spec (refinement reading of the order bonus): 0.3
exactly when the significant tokens that are PRESENT in the text have
nondecreasing first occurrences, regardless of absent tokens.  Used only
to exhibit the divergence from the code's `orderedScore`. -/
def specOrderBonus (ntext inst : Str) : ℚ :=
  let present := (searchTerms inst).filter (fun t => containsSub t ntext)
  if sortedLe (present.filterMap (fun t => firstOcc t ntext)) then 3 / 10 else 0

-- ===== Ranking disambiguator (lookup_institution_ranking, lines 130-172) =====

/-- Line 132: the rows whose institution-name cell equals the (lowered)
name case-insensitively, in original table order (a `NaN` cell never
matches, as in pandas). -/
def matchesOf (df : DataFrame) (name : Str) : List Row :=
  df.rows.filter (fun r => decide ((cellOf r nameCol).map toLowerS = some (toLowerS name)))

/-- Lines 140-146: narrow the matched rows by city, then (if more than one
row is left and a `State` column exists) by state, using lower-cased
substring containment in the lower-cased extracted text; a `NaN` city or
state prints as the string `nan` via `astype(str)`.  When the text is
absent or empty the matches are returned unchanged. -/
def narrowed (df : DataFrame) (ms : List Row) (extracted_text : Option Str) : List Row :=
  match extracted_text with
  | none => ms
  | some t =>
    if t.isEmpty then ms
    else
      let tl := toLowerS t
      let f1 :=
        if S "City" ∈ df.columns then
          ms.filter (fun r => containsSub (toLowerS (pyStrOfCell (cellOf r (S "City")))) tl)
        else ms
      if S "State" ∈ df.columns ∧ f1.length > 1 then
        f1.filter (fun r => containsSub (toLowerS (pyStrOfCell (cellOf r (S "State")))) tl)
      else f1

/-- Lines 155-161: the fixed tier column lists. -/
def tier1Cols : List Str :=
  [ S "Top 100 Overall", S "Top 100 University", S "Top 100 College",
    S "Top 100 Engineering", S "QS Global" ]

def tier2Cols : List Str :=
  [ S "101-200 Overall", S "101-200 University", S "101-200 College" ]

/-- Lines 163-164: keep a column when `pd.notna(row.get(col))` holds and
`str(row[col]).strip()` is truthy, i.e. the cell is a string that is not
blank. -/
def tierMap (r : Row) (cols : List Str) : List (Str × Str) :=
  cols.filterMap (fun c =>
    match rowGet r c with
    | .strV s => if (stripEnds s).isEmpty then none else some (c, s)
    | _ => none)

/-- The record assembled in lines 149-172 (`[]` tier maps model the keys
being omitted from the Python dict). -/
structure LookupRecord where
  name : Option Str
  city : PyVal
  state : PyVal
  tier1 : List (Str × Str)
  tier2 : List (Str × Str)
deriving DecidableEq, Repr

/-- Lines 149-172: project the chosen row into the result record, with the
`CITY`/`City` and `STATE`/`State` capitalization fallback of lines
151-152. -/
def projectRow (r : Row) : LookupRecord :=
  { name := cellOf r nameCol
    city := pyOrVal (rowGet r (S "CITY")) (rowGet r (S "City"))
    state := pyOrVal (rowGet r (S "STATE")) (rowGet r (S "State"))
    tier1 := tierMap r tier1Cols
    tier2 := tierMap r tier2Cols }

/-- Embeds `lookup_institution_ranking` (lines 130-172).  Accessing
`ranking_df['Name of Institution']` raises a `KeyError` when the column is
absent, modelled by the `Except` error; otherwise: no matching row gives
`none`, a single row is used directly, and multiple rows are narrowed by
city/state with fallback to the first matching row when narrowing empties
the set (line 147). -/
def lookup_institution_ranking (name : Str) (df : DataFrame) (extracted_text : Option Str) :
    Except Unit (Option LookupRecord) :=
  if nameCol ∈ df.columns then
    match matchesOf df name with
    | [] => .ok none
    | r0 :: rest =>
      let row :=
        if rest.isEmpty then r0
        else
          match narrowed df (r0 :: rest) extracted_text with
          | [] => r0
          | r :: _ => r
      .ok (some (projectRow row))
  else .error ()

-- ===== Text extractor (extract_text_from_file, lines 19-60) =====

/-- The I/O primitives the extractor calls, abstracted as oracles; an
`Except` error models the call raising an exception.  `Img` is the opaque
type of rasterized page images. -/
structure ExtractOracles (Img : Type) where
  guessType : Str → Option Str
  textractProcess : Str → Except Unit Str
  convertFromPath : Str → Except Unit (List Img)
  imageToString : Img → Except Unit Str
  imageOpen : Str → Except Unit Img

/-- Lines 34-40: rasterize the PDF and concatenate the OCR text of each
page in order; any raised exception propagates. -/
def ocrPdf {Img : Type} (o : ExtractOracles Img) (path : Str) : Except Unit Str := do
  let imgs ← o.convertFromPath path
  imgs.foldlM (fun acc img => do
    let s ← o.imageToString img
    pure (acc ++ s)) []

/-- The body of the outer `try` of lines 23-56: PDF branch (textract with
length-threshold 50, else OCR fallback; the inner `try` of lines 25-32
turns a textract failure into the OCR fallback), word/text branch, image
branch, and the unsupported-format branch returning the empty string. -/
def extractBody {Img : Type} (o : ExtractOracles Img) (path : Str) : Except Unit Str :=
  let file_type := o.guessType path
  if (S ".pdf").isSuffixOf (toLowerS path) then
    match (o.textractProcess path).map stripEnds with
    | .ok t => if t.length > 50 then .ok t else ocrPdf o path
    | .error _ => ocrPdf o path
  else if file_type.any (fun ft =>
      !ft.isEmpty && (containsSub (S "word") ft || containsSub (S "text") ft)) then
    o.textractProcess path
  else if file_type.any (fun ft => !ft.isEmpty && containsSub (S "image") ft) then do
    let img ← o.imageOpen path
    o.imageToString img
  else .ok []

/-- Embeds `extract_text_from_file` (lines 19-60): the outer
`try/except` catches any exception escaping the branches and returns the
empty string (lines 58-60). -/
def extract_text_from_file {Img : Type} (o : ExtractOracles Img) (path : Str) : Str :=
  match extractBody o path with
  | .ok t => t
  | .error _ => []

/-- An oracle environment in which every I/O primitive fails. -/
def allFailOracles : ExtractOracles Unit :=
  { guessType := fun _ => none
    textractProcess := fun _ => .error ()
    convertFromPath := fun _ => .error ()
    imageToString := fun _ => .error ()
    imageOpen := fun _ => .error () }

-- ===== Resolution orchestrator (process_student_files, lines 175-227) =====

/-- The local variables of `process_student_files` (lines 176-179). -/
structure OState where
  source : Option Str
  matched_name : Option Str
  match_score : ℚ
  raw_text : Str
deriving DecidableEq, Repr

/-- One stage of the orchestrator (e.g. lines 182-189): extract the text,
always store it as the raw text, and record name/score/source only when
the matcher returns a truthy (non-empty) name.  Consequently
`matched_name` is only ever `none` or `some` of a non-empty name, so
Python's truthiness test on it coincides with `Option.isSome`. -/
def stageTry (extract : Str → Str) (il : List Str) (path : Str) (label : Str)
    (st : OState) : OState :=
  let text := extract path
  match find_institution text il with
  | (some name, score) =>
    if name.isEmpty then
      { st with raw_text := text }
    else
      { source := some label, matched_name := some name, match_score := score,
        raw_text := text }
  | (none, _) => { st with raw_text := text }

/-- Lines 203-211: try each reference letter in order, breaking as soon as
one stage matches. -/
def refLoop (extract : Str → Str) (il : List Str) : List Str → OState → OState
  | [], st => st
  | p :: ps, st =>
    let st' := stageTry extract il p (S "Reference Letter: " ++ basename p) st
    if st'.matched_name.isSome then st' else refLoop extract il ps st'

/-- Lines 176-211: the state after the transcript, CV and reference-letter
stages, each guarded by Python truthiness of its path argument and by no
earlier stage having matched. -/
def finalState (extract : Str → Str) (transcript_path cv_path : Option Str)
    (reference_paths : List Str) (il : List Str) : OState :=
  let st0 : OState := { source := none, matched_name := none, match_score := 0, raw_text := [] }
  let st1 :=
    if pyTruthyOpt transcript_path then
      stageTry extract il (transcript_path.getD []) (S "Transcript") st0
    else st0
  let st2 :=
    if st1.matched_name.isNone ∧ pyTruthyOpt cv_path then
      stageTry extract il (cv_path.getD []) (S "CV") st1
    else st1
  if st2.matched_name.isNone ∧ ¬ reference_paths.isEmpty then
    refLoop extract il reference_paths st2
  else st2

/-- The dictionary shapes returned by `process_student_files`: the minimal
no-match record of lines 214-219 and the enriched record of lines
222-226. -/
inductive ProcessResult where
  | minimal (raw_text : Str) (source : Str) (match_score : ℚ)
  | full (info : LookupRecord) (source : Option Str) (raw_text : Str) (match_score : ℚ)
deriving DecidableEq, Repr

/-- Embeds `process_student_files` (lines 175-227).  The extractor is
passed as a function parameter (`extract_text_from_file` applied to its
oracles fits).  `.ok none` is the Python function returning `None` (a
matched name whose lookup found no row, lines 222-227); the `Except`
error is the uncaught `KeyError` that `lookup_institution_ranking` raises
on a table without the institution-name column. -/
def process_student_files (extract : Str → Str) (transcript_path cv_path : Option Str)
    (reference_paths : List Str) (ranking_df : DataFrame) (institution_list : List Str) :
    Except Unit (Option ProcessResult) :=
  let st := finalState extract transcript_path cv_path reference_paths institution_list
  match st.matched_name with
  | none => .ok (some (.minimal st.raw_text (pyOrStr st.source (S "No match")) st.match_score))
  | some nm => do
    let res ← lookup_institution_ranking nm ranking_df (some st.raw_text)
    match res with
    | none => pure none
    | some info => pure (some (.full info st.source st.raw_text st.match_score))

/-- The text extracted by the last stage the orchestrator attempts when no
stage matches: the last reference letter if any reference letters are
given, else the CV if given, else the transcript if given, else the empty
string. -/
def lastAttemptedText (extract : Str → Str) (transcript_path cv_path : Option Str)
    (reference_paths : List Str) : Str :=
  if ¬ reference_paths.isEmpty then extract (reference_paths.getLastD [])
  else if pyTruthyOpt cv_path then extract (cv_path.getD [])
  else if pyTruthyOpt transcript_path then extract (transcript_path.getD [])
  else []

/-- A returned record carries a source label and a score: both dictionary
shapes have a score field, the minimal record always has a source string,
and the enriched record must hold an actual label. -/
def hasSourceAndScore : ProcessResult → Prop
  | .minimal _ _ _ => True
  | .full _ src _ _ => src.isSome = true

/-- The orchestrator-state invariant: any matched name came from the
candidate list, and a matched state carries a source label. -/
def stageInv (il : List Str) (st : OState) : Prop :=
  (∀ nm, st.matched_name = some nm → nm ∈ il) ∧
  (st.matched_name.isSome = true → st.source.isSome = true)

-- ===== Concrete tables used by witnesses and counterexamples =====

/-- A two-campus table row: Acme Institute in Springfield, Ohio. -/
def rowSpringfield : Row :=
  [(nameCol, some (S "Acme Institute")), (S "City", some (S "Springfield")),
   (S "State", some (S "Ohio"))]

/-- A two-campus table row: Acme Institute in Shelbyville, Iowa. -/
def rowShelbyville : Row :=
  [(nameCol, some (S "Acme Institute")), (S "City", some (S "Shelbyville")),
   (S "State", some (S "Iowa"))]

/-- A table with two rows sharing one institution name. -/
def dfTwoCampus : DataFrame :=
  { columns := [nameCol, S "City", S "State"], rows := [rowSpringfield, rowShelbyville] }

/-- Two-campus rows under the alternative CITY/STATE capitalization. -/
def rowCapsA : Row :=
  [(nameCol, some (S "Acme Institute")), (S "CITY", some (S "Springfield")),
   (S "STATE", some (S "Ohio"))]

def rowCapsB : Row :=
  [(nameCol, some (S "Acme Institute")), (S "CITY", some (S "Shelbyville")),
   (S "STATE", some (S "Iowa"))]

/-- A table whose city/state columns are named CITY and STATE. -/
def dfCaps : DataFrame :=
  { columns := [nameCol, S "CITY", S "STATE"], rows := [rowCapsA, rowCapsB] }

/-- A one-row table holding the institution Zeta. -/
def dfZeta : DataFrame :=
  { columns := [nameCol], rows := [[(nameCol, some (S "Zeta"))]] }

/-- A table whose institution-name column holds a blank (whitespace-only)
value. -/
def dfBlankName : DataFrame :=
  { columns := [nameCol], rows := [[(nameCol, some (S " "))]] }

-- ===== General lemmas about the string primitives =====

theorem Char_toLower_idem (c : Char) : c.toLower.toLower = c.toLower := by
  unfold Char.toLower
  by_cases h : c.toNat ≥ 65 ∧ c.toNat ≤ 90
  · rw [if_pos h]
    have valid : (c.toNat + 32).isValidChar := Or.inl (by omega)
    have hv : (Char.ofNat (c.toNat + 32)).toNat = c.toNat + 32 := by
      rw [Char.ofNat, dif_pos valid]
      simp [Char.ofNatAux, Char.toNat, UInt32.toNat]
    rw [if_neg]
    rw [hv]
    omega
  · rw [if_neg h, if_neg h]

theorem toLowerS_idem (s : Str) : toLowerS (toLowerS s) = toLowerS s := by
  induction s with
  | nil => rfl
  | cons c t _ => simp [toLowerS, Char_toLower_idem]

theorem splitWsAux_mem_ne_nil (s : Str) :
    ∀ (cur w : Str), w ∈ splitWsAux s cur → w ≠ [] := by
  induction s with
  | nil =>
    intro cur w hw
    by_cases h : cur = []
    · simp [splitWsAux, h] at hw
    · simp [splitWsAux, h] at hw
      subst hw
      simpa using h
  | cons c rest ih =>
    intro cur w hw
    by_cases hws : c.isWhitespace
    · by_cases h : cur = []
      · simp [splitWsAux, hws, h] at hw
        exact ih [] w hw
      · simp [splitWsAux, hws, h] at hw
        rcases hw with hw | hw
        · subst hw
          simpa using h
        · exact ih [] w hw
    · simp [splitWsAux, hws] at hw
      exact ih (c :: cur) w hw

theorem splitWs_mem_ne_nil (s w : Str) (hw : w ∈ splitWs s) : w ≠ [] :=
  splitWsAux_mem_ne_nil s [] w hw

theorem containsSub_nil_false (pat : Str) (h : pat ≠ []) : containsSub pat [] = false := by
  simp [containsSub, firstOcc, h]

theorem searchTerms_mem_ne_nil (inst tm : Str) (h : tm ∈ searchTerms inst) : tm ≠ [] := by
  have := (List.mem_filter.mp h).2
  intro hnil
  subst hnil
  simp at this

theorem phase1Accepts_nil_text (inst : Str)
    (h : ∀ v ∈ variations inst, splitWs v ≠ []) :
    phase1Accepts [] inst = false := by
  rw [phase1Accepts, List.any_eq_false]
  intro v hv
  cases hsv : splitWs v with
  | nil => exact absurd hsv (h v hv)
  | cons w ws =>
    have hw : w ∈ splitWs v := by rw [hsv]; exact List.mem_cons_self w ws
    have hne := splitWs_mem_ne_nil v w hw
    simp [hsv, containsSub_nil_false w hne]

theorem phase2Score_nil_text (inst : Str) : phase2Score [] inst = 0 := by
  by_cases h : termsCount inst = 0
  · simp [phase2Score, completenessScore, orderedScore, h]
  · have hterms : searchTerms inst ≠ [] := by
      intro hnil
      apply h
      simp [termsCount, hnil]
    have hpres : presentCount [] inst = 0 := by
      rw [presentCount, List.length_eq_zero, List.filter_eq_nil_iff]
      intro tm ht
      simp [containsSub_nil_false tm (searchTerms_mem_ne_nil inst tm ht)]
    have hflag : orderedFlag [] inst = false := by
      rw [orderedFlag]
      cases hsv : searchTerms inst with
      | nil => exact absurd hsv hterms
      | cons tm ts =>
        have hne := searchTerms_mem_ne_nil inst tm (by rw [hsv]; exact List.mem_cons_self tm ts)
        have hocc : firstOcc tm [] = none := by simp [firstOcc, hne]
        simp [positionsOf, hocc]
    simp [phase2Score, completenessScore, orderedScore, h, hpres, hflag]

theorem foldl_score_all_zero (ntext : Str) : ∀ (l : List Str),
    (∀ i ∈ l, phase2Score ntext i = 0) →
    List.foldl (fun best inst =>
      let s := phase2Score ntext inst
      if s > best.2 then (some inst, s) else best) ((none : Option Str), (0 : ℚ)) l
      = (none, 0) := by
  intro l
  induction l with
  | nil => intro _; rfl
  | cons a t ih =>
    intro h
    rw [List.foldl_cons]
    have ha := h a (List.mem_cons_self a t)
    simp only [ha, lt_self_iff_false, gt_iff_lt, if_false]
    exact ih (fun i hi => h i (List.mem_cons_of_mem a hi))

theorem phase2Best_all_zero (ntext : Str) (l : List Str)
    (h : ∀ i ∈ l, phase2Score ntext i = 0) :
    phase2Best ntext l = (none, 0) := by
  rw [phase2Best]
  exact foldl_score_all_zero ntext l h

theorem find?_first_true (p : Str → Bool) : ∀ (l1 : List Str) (N : Str) (l2 : List Str),
    (∀ M ∈ l1, p M = false) → p N = true →
    (l1 ++ N :: l2).find? p = some N := by
  intro l1
  induction l1 with
  | nil =>
    intro N l2 _ h2
    exact List.find?_cons_of_pos _ h2
  | cons a as ih =>
    intro N l2 h1 h2
    rw [List.cons_append, List.find?_cons_of_neg _ (by simp [h1 a (List.mem_cons_self a as)])]
    exact ih N l2 (fun M hM => h1 M (List.mem_cons_of_mem a hM)) h2

-- ===== Claim C1 =====

/-- Claim C1, counterexample: the text `abc. def` contains every
whitespace-delimited token of the candidate name `abc. def` (each token is
even a verbatim substring), yet `find_institution` returns no match with
score 0 rather than that name with score 100, because phase 1 tests the
raw tokens (with their periods) against the period-stripped normalized
text. -/
theorem C1_counterexample :
    (∀ w ∈ splitWs (S "abc. def"), containsSub w (S "abc. def") = true) ∧
    find_institution (S "abc. def") [S "abc. def"] = (none, 0) ∧
    ((none : Option Str), (0 : ℚ)) ≠ (some (S "abc. def"), 100) := by
  refine ⟨by decide, ?_, by simp⟩
  have h1 : termsCount (S "abc. def") = 1 := by decide
  have h2 : presentCount (normalizeText (S "abc. def")) (S "abc. def") = 0 := by decide
  have h3 : orderedFlag (normalizeText (S "abc. def")) (S "abc. def") = false := by decide
  have hsc : phase2Score (normalizeText (S "abc. def")) (S "abc. def") = 0 := by
    simp [phase2Score, completenessScore, orderedScore, h1, h2, h3]
  have hb : phase2Best (normalizeText (S "abc. def")) [S "abc. def"] = (none, 0) :=
    phase2Best_all_zero _ _ (by simp [hsc])
  have hfind : List.find? (fun inst => phase1Accepts (normalizeText (S "abc. def")) inst)
      [S "abc. def"] = none := by decide
  simp only [find_institution, hfind, hb]
  norm_num

/-- Claim C1, amended: for every text T and candidate list, if N is the
first candidate in list order accepted by the phase-1 test (every token of
some honorific variant of N occurs as a substring of the NORMALIZED text
of T), then `find_institution` returns (N, 100) immediately, considering
no later candidate. -/
theorem C1_first_contained_candidate_wins (t : Str) (l1 l2 : List Str) (N : Str)
    (h1 : ∀ M ∈ l1, phase1Accepts (normalizeText t) M = false)
    (h2 : phase1Accepts (normalizeText t) N = true) :
    find_institution t (l1 ++ N :: l2) = (some N, 100) := by
  simp only [find_institution,
    find?_first_true (fun inst => phase1Accepts (normalizeText t) inst) l1 N l2 h1 h2]

/-- Witness for `C1_first_contained_candidate_wins` at a concrete input. -/
theorem C1_first_contained_candidate_wins_witness :
    find_institution (S "harvard university") ([S "yale college"] ++ S "harvard university" :: [S "x"]) =
      (some (S "harvard university"), 100) :=
  C1_first_contained_candidate_wins (S "harvard university") [S "yale college"] [S "x"]
    (S "harvard university") (by decide) (by decide)

-- ===== Claim C8 =====

/-- Claim C8, counterexample: for the candidate list holding the single
blank name `""` (which the loader does not drop), matching the empty text
returns that blank name with score 100, not no-match with score 0: every
variant of the blank candidate has zero tokens, so the phase-1
all-tokens-contained test passes vacuously. -/
theorem C8_counterexample :
    find_institution [] [([] : Str)] = (some [], 100) ∧
    (some ([] : Str), (100 : ℚ)) ≠ ((none : Option Str), (0 : ℚ)) := by
  exact ⟨rfl, by simp⟩

/-- Claim C8, amended: matching empty text yields no match with score 0
provided every honorific variant of every candidate has at least one
whitespace-delimited token (in particular no candidate is blank); and
matching any text against an empty candidate list yields no match with
score 0. -/
theorem C8_empty_inputs (cands : List Str) (t : Str)
    (h : ∀ inst ∈ cands, ∀ v ∈ variations inst, splitWs v ≠ []) :
    find_institution [] cands = (none, 0) ∧ find_institution t [] = (none, 0) := by
  have hn : normalizeText [] = ([] : Str) := rfl
  constructor
  · have hb : phase2Best (normalizeText []) cands = (none, 0) :=
      phase2Best_all_zero _ _ (fun i _ => by rw [hn]; exact phase2Score_nil_text i)
    have hfind : List.find? (fun inst => phase1Accepts (normalizeText []) inst) cands = none := by
      rw [List.find?_eq_none]
      intro x hx
      rw [hn]
      simp [phase1Accepts_nil_text x (h x hx)]
    simp only [find_institution, hfind, hb]
    norm_num
  · have hb : phase2Best (normalizeText t) [] = (none, 0) := rfl
    simp only [find_institution, List.find?_nil, hb]
    norm_num

/-- Witness for `C8_empty_inputs` at a concrete input. -/
theorem C8_empty_inputs_witness :
    find_institution [] [S "mit"] = (none, 0) ∧ find_institution (S "x") [] = (none, 0) :=
  C8_empty_inputs [S "mit"] (S "x") (by decide)

-- ===== Lemmas about positionsOf =====

theorem termsCount_eq_zero_iff (inst : Str) : termsCount inst = 0 ↔ searchTerms inst = [] := by
  simp [termsCount, List.length_eq_zero]

theorem positionsOf_of_all_present (ntext : Str) : ∀ (l : List Str),
    (∀ tm ∈ l, (firstOcc tm ntext).isSome = true) →
    positionsOf ntext l = some (l.filterMap (fun tm => firstOcc tm ntext)) := by
  intro l
  induction l with
  | nil => intro _; rfl
  | cons a t ih =>
    intro h
    obtain ⟨p, hp⟩ := Option.isSome_iff_exists.mp (h a (List.mem_cons_self a t))
    rw [positionsOf, hp, ih (fun tm htm => h tm (List.mem_cons_of_mem a htm))]
    simp [List.filterMap_cons, hp]

theorem positionsOf_eq_some_imp (ntext : Str) : ∀ (l : List Str) (ps : List Nat),
    positionsOf ntext l = some ps →
    (∀ tm ∈ l, (firstOcc tm ntext).isSome = true) ∧
    ps = l.filterMap (fun tm => firstOcc tm ntext) := by
  intro l
  induction l with
  | nil =>
    intro ps h
    simp [positionsOf] at h
    subst h
    exact ⟨by simp, rfl⟩
  | cons a t ih =>
    intro ps h
    rw [positionsOf] at h
    cases ha : firstOcc a ntext with
    | none => rw [ha] at h; simp at h
    | some p =>
      rw [ha] at h
      cases ht : positionsOf ntext t with
      | none => rw [ht] at h; simp at h
      | some qs =>
        rw [ht] at h
        simp only [Option.some.injEq] at h
        obtain ⟨h1, h2⟩ := ih qs ht
        constructor
        · intro tm htm
          rcases List.mem_cons.mp htm with rfl | htm
          · simp [ha]
          · exact h1 tm htm
        · rw [← h]
          simp [List.filterMap_cons, ha, ← h2]

-- ===== Claim C4 =====

/-- Claim C4, counterexample: for the candidate `university college` and
text `university`, the single present significant token trivially occurs
in order, so the claim's reading assigns an order bonus of 0.3 (spec-side
value 3/10) and a total of (1/2 + 3/10)·100 = 80; the code, however,
computes `normalized_text.index` for EVERY significant token, so the
absent token `college` raises `ValueError` and the bonus is 0, giving
total 50 and no match. -/
theorem C4_counterexample :
    specOrderBonus (normalizeText (S "university")) (S "university college") = 3 / 10 ∧
    orderedScore (normalizeText (S "university")) (S "university college") = 0 ∧
    find_institution (S "university") [S "university college"] = (none, 50) ∧
    (50 : ℚ) ≠ (1 / 2 + 3 / 10) * 100 := by
  have h1 : termsCount (S "university college") = 2 := by decide
  have h2 : presentCount (normalizeText (S "university")) (S "university college") = 1 := by decide
  have h3 : orderedFlag (normalizeText (S "university")) (S "university college") = false := by
    decide
  have hsc : phase2Score (normalizeText (S "university")) (S "university college") = 50 := by
    simp only [phase2Score, completenessScore, orderedScore, h1, h2, h3]
    norm_num
  have hfind : List.find? (fun inst => phase1Accepts (normalizeText (S "university")) inst)
      [S "university college"] = none := by decide
  have hb : phase2Best (normalizeText (S "university")) [S "university college"] =
      (some (S "university college"), 50) := by
    simp only [phase2Best, List.foldl_cons, List.foldl_nil, hsc]
    rw [if_pos (by norm_num : (50 : ℚ) > 0)]
  refine ⟨?_, ?_, ?_, by norm_num⟩
  · simp [specOrderBonus,
      show sortedLe (((searchTerms (S "university college")).filter
        (fun tm => containsSub tm (normalizeText (S "university")))).filterMap
        (fun tm => firstOcc tm (normalizeText (S "university")))) = true from by decide]
  · simp [orderedScore, h1, h3]
  · simp only [find_institution, hfind, hb]
    norm_num

/-- Claim C4, amended: the order bonus is 0.3 exactly when the candidate
has at least one significant token, EVERY significant token (not merely
the present ones) occurs in the text, and the first occurrences are
nondecreasing in candidate order; otherwise it is 0; and the total score
is (completeness + order bonus) × 100 as claimed. -/
theorem C4_order_bonus_characterization (ntext inst : Str) :
    (orderedScore ntext inst = 3 / 10 ↔
      (searchTerms inst ≠ [] ∧
       (∀ tm ∈ searchTerms inst, containsSub tm ntext = true) ∧
       sortedLe ((searchTerms inst).filterMap (fun tm => firstOcc tm ntext)) = true)) ∧
    (orderedScore ntext inst = 3 / 10 ∨ orderedScore ntext inst = 0) ∧
    phase2Score ntext inst = (completenessScore ntext inst + orderedScore ntext inst) * 100 := by
  refine ⟨?_, ?_, rfl⟩
  · rw [orderedScore]
    by_cases h : termsCount inst = 0
    · rw [if_pos h]
      apply iff_of_false (by norm_num)
      rintro ⟨hne, -, -⟩
      exact hne (termsCount_eq_zero_iff inst |>.mp h)
    · rw [if_neg h, orderedFlag]
      cases hop : positionsOf ntext (searchTerms inst) with
      | none =>
        apply iff_of_false (by norm_num)
        rintro ⟨-, hall, -⟩
        have := positionsOf_of_all_present ntext (searchTerms inst)
          (fun tm htm => by have := hall tm htm; rwa [containsSub] at this)
        rw [hop] at this
        exact Option.noConfusion this
      | some ps =>
        obtain ⟨hall, hps⟩ := positionsOf_eq_some_imp ntext (searchTerms inst) ps hop
        by_cases hs : sortedLe ps = true
        · rw [if_pos hs]
          apply iff_of_true rfl
          refine ⟨fun hnil => h (termsCount_eq_zero_iff inst |>.mpr hnil), ?_, ?_⟩
          · intro tm htm
            have := hall tm htm
            rwa [containsSub]
          · rwa [← hps]
        · rw [if_neg hs]
          apply iff_of_false (by norm_num)
          rintro ⟨-, -, hsort⟩
          rw [← hps] at hsort
          exact hs hsort
  · rw [orderedScore]
    by_cases h : termsCount inst = 0
    · rw [if_pos h]; right; rfl
    · rw [if_neg h]
      by_cases hf : orderedFlag ntext inst = true
      · rw [if_pos hf]; left; rfl
      · rw [if_neg hf]; right; rfl

/-- Witness for `C4_order_bonus_characterization` at a concrete input
where the bonus fires. -/
theorem C4_order_bonus_characterization_witness :
    orderedScore (normalizeText (S "alpha beta")) (S "alpha beta") = 3 / 10 :=
  (C4_order_bonus_characterization (normalizeText (S "alpha beta")) (S "alpha beta")).1.mpr
    ⟨by decide, by decide, by decide⟩

-- ===== Claim C7 =====

/-- Claim C7, counterexample: a table whose institution-name column holds
the blank value made of a single space loads successfully and the blank
value is KEPT in the candidate list (the loader only drops missing
values via `dropna`, not blank strings), contradicting the claim that
blank values are dropped. -/
theorem C7_counterexample :
    init_ranking_data dfBlankName = .ok (dfBlankName, [S " "]) ∧
    splitWs (S " ") = [] ∧ S " " ≠ [] := by
  exact ⟨rfl, by decide, by decide⟩

/-- Claim C7, amended: loading fails exactly when the designated
institution-name column is absent; otherwise it returns the table
unchanged together with the candidate list of the column's lower-cased
non-missing values — blank (whitespace-only or empty) strings are NOT
dropped. -/
theorem C7_loader_characterization (df : DataFrame) :
    (init_ranking_data df = .error () ↔ nameCol ∉ df.columns) ∧
    (∀ il, init_ranking_data df = .ok (df, il) →
      ∀ x, x ∈ il ↔ ∃ v, (∃ r ∈ df.rows, cellOf r nameCol = some v) ∧ x = toLowerS v) := by
  constructor
  · rw [init_ranking_data]
    by_cases hc : nameCol ∈ df.columns
    · rw [if_pos hc]
      exact iff_of_false (fun h => Except.noConfusion h) (fun h => h hc)
    · rw [if_neg hc]
      exact iff_of_true rfl hc
  · intro il hil x
    rw [init_ranking_data] at hil
    by_cases hc : nameCol ∈ df.columns
    · rw [if_pos hc] at hil
      injection hil with h
      injection h with h1 h2
      rw [← h2]
      simp only [List.mem_map, List.mem_filterMap]
      constructor
      · rintro ⟨v, ⟨r, hr, hcell⟩, hx⟩
        exact ⟨v, ⟨r, hr, hcell⟩, hx.symm⟩
      · rintro ⟨v, ⟨r, hr, hcell⟩, hx⟩
        exact ⟨v, ⟨r, hr, hcell⟩, hx.symm⟩
    · rw [if_neg hc] at hil
      exact Except.noConfusion hil

/-- Witness for `C7_loader_characterization` at a concrete table. -/
theorem C7_loader_characterization_witness :
    ∃ v, (∃ r ∈ dfZeta.rows, cellOf r nameCol = some v) ∧ S "zeta" = toLowerS v :=
  ((C7_loader_characterization dfZeta).2 [S "zeta"] rfl (S "zeta")).mp (by decide)

-- ===== Lemmas about the disambiguator =====

theorem lookup_matches_nil (df : DataFrame) (name : Str) (txt : Option Str)
    (hc : nameCol ∈ df.columns) (h : matchesOf df name = []) :
    lookup_institution_ranking name df txt = .ok none := by
  rw [lookup_institution_ranking, if_pos hc, h]

theorem lookup_matches_cons (df : DataFrame) (name : Str) (txt : Option Str)
    (r0 : Row) (rest : List Row) (hc : nameCol ∈ df.columns)
    (h : matchesOf df name = r0 :: rest) :
    lookup_institution_ranking name df txt =
      .ok (some (projectRow (if rest.isEmpty then r0
        else
          match narrowed df (r0 :: rest) txt with
          | [] => r0
          | r :: _ => r))) := by
  rw [lookup_institution_ranking, if_pos hc, h]

-- ===== Claim C5 =====

/-- Claim C5, confirmed: given the institution-name column exists, the
lookup returns no record exactly when no table row shares the matched
name case-insensitively; whenever at least one row shares the name a
record is always produced; and when the text is absent or the city/state
narrowing empties the candidate set, the record is built from the FIRST
matching row in original table order.  Determinism is immediate since the
embedded function is pure. -/
theorem C5_disambiguation_total (name : Str) (df : DataFrame) (txt : Option Str)
    (hc : nameCol ∈ df.columns) :
    (lookup_institution_ranking name df txt = .ok none ↔ matchesOf df name = []) ∧
    (matchesOf df name ≠ [] →
      ∃ rec, lookup_institution_ranking name df txt = .ok (some rec)) ∧
    (∀ r0 rest, matchesOf df name = r0 :: rest →
      (txt = none ∨ narrowed df (r0 :: rest) txt = []) →
      lookup_institution_ranking name df txt = .ok (some (projectRow r0))) := by
  refine ⟨⟨?_, lookup_matches_nil df name txt hc⟩, ?_, ?_⟩
  · intro h
    cases hm : matchesOf df name with
    | nil => rfl
    | cons r0 rest =>
      rw [lookup_matches_cons df name txt r0 rest hc hm] at h
      simp at h
  · intro h
    cases hm : matchesOf df name with
    | nil => exact absurd hm h
    | cons r0 rest => exact ⟨_, lookup_matches_cons df name txt r0 rest hc hm⟩
  · intro r0 rest hm hfb
    rw [lookup_matches_cons df name txt r0 rest hc hm]
    by_cases hrest : rest.isEmpty = true
    · rw [if_pos hrest]
    · rw [if_neg hrest]
      rcases hfb with rfl | hnar
      · rfl
      · rw [hnar]

/-- Witness for `C5_disambiguation_total`: two campuses share the name and
no text is given, so the first row in table order is returned. -/
theorem C5_disambiguation_total_witness :
    lookup_institution_ranking (S "acme institute") dfTwoCampus none =
      .ok (some (projectRow rowSpringfield)) :=
  (C5_disambiguation_total (S "acme institute") dfTwoCampus none (by decide)).2.2
    rowSpringfield [rowShelbyville] (by decide) (Or.inl rfl)

-- ===== Claim C10 =====

/-- Claim C10, confirmed: the narrowing step tests for columns named
exactly `City` and `State`; on a table using the alternative CITY/STATE
capitalization (which the projection step tolerates), no narrowing
happens and the first matching row in table order is returned regardless
of any city or state evidence in the text. -/
theorem C10_narrowing_requires_exact_columns (df : DataFrame) (name : Str)
    (txt : Option Str) (r0 : Row) (rest : List Row)
    (hc : nameCol ∈ df.columns) (hcity : S "City" ∉ df.columns)
    (hstate : S "State" ∉ df.columns) (hm : matchesOf df name = r0 :: rest) :
    lookup_institution_ranking name df txt = .ok (some (projectRow r0)) := by
  rw [lookup_matches_cons df name txt r0 rest hc hm]
  have hnar : narrowed df (r0 :: rest) txt = r0 :: rest := by
    cases txt with
    | none => rfl
    | some t =>
      rw [narrowed]
      by_cases ht : t.isEmpty = true
      · rw [if_pos ht]
      · rw [if_neg ht]
        simp [hcity, hstate]
  by_cases hrest : rest.isEmpty = true
  · rw [if_pos hrest]
  · rw [if_neg hrest, hnar]

/-- Witness for `C10_narrowing_requires_exact_columns`: the text names the
second campus's city, yet the first row is returned because the table's
columns are capitalized CITY/STATE. -/
theorem C10_narrowing_requires_exact_columns_witness :
    lookup_institution_ranking (S "acme institute") dfCaps (some (S "shelbyville iowa")) =
      .ok (some (projectRow rowCapsA)) :=
  C10_narrowing_requires_exact_columns dfCaps (S "acme institute")
    (some (S "shelbyville iowa")) rowCapsA [rowCapsB]
    (by decide) (by decide) (by decide) (by decide)

-- ===== Claim C9 =====

/-- Claim C9, confirmed: the extractor's outer exception handler turns any
failure of the body into the empty string, a successful body is returned
as-is, an unknown format (no MIME guess, not a `.pdf` path) yields the
empty string, and even an environment in which every I/O primitive raises
yields the empty string for every path — no exception escapes the
extractor's boundary. -/
theorem C9_extractor_never_raises {Img : Type} (o : ExtractOracles Img) (path : Str) :
    (∀ e, extractBody o path = .error e → extract_text_from_file o path = []) ∧
    (∀ t, extractBody o path = .ok t → extract_text_from_file o path = t) ∧
    (o.guessType path = none → (S ".pdf").isSuffixOf (toLowerS path) = false →
      extract_text_from_file o path = []) ∧
    (∀ q, extract_text_from_file allFailOracles q = []) := by
  refine ⟨?_, ?_, ?_, ?_⟩
  · intro e h
    rw [extract_text_from_file, h]
  · intro t h
    rw [extract_text_from_file, h]
  · intro hg hs
    rw [extract_text_from_file]
    have hbody : extractBody o path = .ok [] := by
      rw [extractBody, hg]
      simp [hs]
    rw [hbody]
  · intro q
    rw [extract_text_from_file]
    have hbody : extractBody allFailOracles q = .ok [] ∨
        extractBody allFailOracles q = .error () := by
      rw [extractBody]
      by_cases hpdf : (S ".pdf").isSuffixOf (toLowerS q) = true
      · right
        simp only [hpdf, allFailOracles, ocrPdf, Except.map, if_true]
        rfl
      · left
        simp [hpdf, allFailOracles]
    rcases hbody with h | h <;> rw [h]

/-- Witness for `C9_extractor_never_raises`: with every oracle failing and
a PDF path, the body fails and the extractor returns the empty string. -/
theorem C9_extractor_never_raises_witness :
    extract_text_from_file allFailOracles (S "a.pdf") = [] :=
  (C9_extractor_never_raises allFailOracles (S "a.pdf")).1 () (by rfl)

-- ===== Lemmas about the orchestrator =====

theorem stageTry_no_match (extract : Str → Str) (il : List Str) (p lbl : Str) (st : OState)
    (h : (find_institution (extract p) il).1 = none) :
    stageTry extract il p lbl st = { st with raw_text := extract p } := by
  have hf : find_institution (extract p) il = (none, (find_institution (extract p) il).2) :=
    Prod.ext h rfl
  simp only [stageTry]
  rw [hf]

theorem refLoop_no_match (extract : Str → Str) (il : List Str)
    (h : ∀ p, (find_institution (extract p) il).1 = none) :
    ∀ (ps : List Str) (st : OState), st.matched_name = none →
      refLoop extract il ps st = { st with raw_text := (ps.map extract).getLastD st.raw_text } := by
  intro ps
  induction ps with
  | nil => intro st _; rfl
  | cons p t ih =>
    intro st hst
    rw [refLoop]
    rw [stageTry_no_match extract il p _ st (h p)]
    have hst' : ({ st with raw_text := extract p } : OState).matched_name = none := hst
    rw [if_neg (by simp [hst])]
    rw [ih { st with raw_text := extract p } hst']
    rw [List.map_cons, List.getLastD_cons]

theorem getLastD_map_ne_nil (f : Str → Str) : ∀ (l : List Str), l ≠ [] → ∀ (d d' : Str),
    (l.map f).getLastD d = f (l.getLastD d') := by
  intro l
  induction l with
  | nil => intro hne; exact absurd rfl hne
  | cons a t ih =>
    intro _ d d'
    by_cases ht : t = []
    · subst ht; simp
    · simp only [List.map_cons, List.getLastD_cons]
      exact ih ht (f a) a

theorem finalState_no_match (extract : Str → Str) (tp cp : Option Str) (rps : List Str)
    (il : List Str) (h : ∀ p, (find_institution (extract p) il).1 = none) :
    finalState extract tp cp rps il =
      { source := none, matched_name := none, match_score := 0,
        raw_text := lastAttemptedText extract tp cp rps } := by
  have hkey : ∀ (p lbl : Str) (st : OState),
      stageTry extract il p lbl st = { st with raw_text := extract p } :=
    fun p lbl st => stageTry_no_match extract il p lbl st (h p)
  simp only [finalState, lastAttemptedText]
  by_cases h3 : rps.isEmpty = true
  · have hrps : rps = [] := by simpa using h3
    subst hrps
    by_cases h1 : pyTruthyOpt tp = true <;> by_cases h2 : pyTruthyOpt cp = true <;>
      simp [h1, h2, hkey]
  · have hrps : rps ≠ [] := by simpa using h3
    obtain ⟨x, hx⟩ := Option.isSome_iff_exists.mp (List.getLast?_isSome.mpr hrps)
    by_cases h1 : pyTruthyOpt tp = true <;> by_cases h2 : pyTruthyOpt cp = true <;>
      simp [h1, h2, h3, hkey, refLoop_no_match extract il h, hx]

theorem phase2_foldl_fst_mem (ntext : Str) (nm : Str) : ∀ (l : List Str) (acc : Option Str × ℚ),
    (List.foldl (fun best inst =>
      let s := phase2Score ntext inst
      if s > best.2 then (some inst, s) else best) acc l).1 = some nm →
    acc.1 = some nm ∨ nm ∈ l := by
  intro l
  induction l with
  | nil => intro acc h; exact Or.inl h
  | cons a t ih =>
    intro acc h
    rw [List.foldl_cons] at h
    rcases ih _ h with h' | h'
    · simp only [] at h'
      split at h'
      · simp only [Option.some.injEq] at h'
        exact Or.inr (by rw [← h']; exact List.mem_cons_self a t)
      · exact Or.inl h'
    · exact Or.inr (List.mem_cons_of_mem a h')

theorem find_institution_fst_mem (t : Str) (il : List Str) (nm : Str)
    (h : (find_institution t il).1 = some nm) : nm ∈ il := by
  simp only [find_institution] at h
  cases hf : List.find? (fun inst => phase1Accepts (normalizeText t) inst) il with
  | some i =>
    rw [hf] at h
    simp only [Option.some.injEq] at h
    rw [← h]
    exact List.mem_of_find?_eq_some hf
  | none =>
    rw [hf] at h
    simp only [] at h
    split at h
    · rw [phase2Best] at h
      rcases phase2_foldl_fst_mem (normalizeText t) nm il (none, 0) h with h' | h'
      · exact absurd h' (by simp)
      · exact h'
    · exact absurd h (by simp)

theorem stageTry_inv (extract : Str → Str) (il : List Str) (p lbl : Str) (st : OState)
    (hst : stageInv il st) : stageInv il (stageTry extract il p lbl st) := by
  simp only [stageTry]
  split
  · rename_i name score heq
    split
    · exact hst
    · constructor
      · intro nm' h'
        simp only [Option.some.injEq] at h'
        rw [← h']
        exact find_institution_fst_mem (extract p) il name (by rw [heq])
      · intro _
        rfl
  · exact hst

theorem refLoop_inv (extract : Str → Str) (il : List Str) :
    ∀ (ps : List Str) (st : OState), stageInv il st → stageInv il (refLoop extract il ps st) := by
  intro ps
  induction ps with
  | nil => intro st h; exact h
  | cons p t ih =>
    intro st h
    rw [refLoop]
    by_cases hm :
        (stageTry extract il p (S "Reference Letter: " ++ basename p) st).matched_name.isSome = true
    · rw [if_pos hm]
      exact stageTry_inv extract il p _ st h
    · rw [if_neg hm]
      exact ih _ (stageTry_inv extract il p _ st h)

theorem stageInv_ite (il : List Str) (c : Prop) [Decidable c] (a b : OState)
    (ha : stageInv il a) (hb : stageInv il b) : stageInv il (if c then a else b) := by
  split
  · exact ha
  · exact hb

theorem finalState_inv (extract : Str → Str) (tp cp : Option Str) (rps : List Str)
    (il : List Str) : stageInv il (finalState extract tp cp rps il) := by
  have h0 : stageInv il { source := none, matched_name := none, match_score := 0, raw_text := [] } :=
    ⟨fun nm h => Option.noConfusion h, fun h => by simp at h⟩
  simp only [finalState]
  apply stageInv_ite
  · apply refLoop_inv
    apply stageInv_ite
    · apply stageTry_inv
      apply stageInv_ite
      · exact stageTry_inv extract il _ _ _ h0
      · exact h0
    · apply stageInv_ite
      · exact stageTry_inv extract il _ _ _ h0
      · exact h0
  · apply stageInv_ite
    · apply stageTry_inv
      apply stageInv_ite
      · exact stageTry_inv extract il _ _ _ h0
      · exact h0
    · apply stageInv_ite
      · exact stageTry_inv extract il _ _ _ h0
      · exact h0

theorem loader_columns (df : DataFrame) (il : List Str)
    (hinit : init_ranking_data df = .ok (df, il)) : nameCol ∈ df.columns := by
  by_contra hc
  rw [init_ranking_data, if_neg hc] at hinit
  exact Except.noConfusion hinit

theorem loader_match_nonempty (df : DataFrame) (il : List Str) (nm : Str)
    (hinit : init_ranking_data df = .ok (df, il)) (hmem : nm ∈ il) :
    matchesOf df nm ≠ [] := by
  have hc := loader_columns df il hinit
  rw [init_ranking_data, if_pos hc] at hinit
  injection hinit with h
  injection h with h1 h2
  rw [← h2, List.mem_map] at hmem
  obtain ⟨v, hv, hnm⟩ := hmem
  rw [List.mem_filterMap] at hv
  obtain ⟨r, hr, hcell⟩ := hv
  have hrm : r ∈ matchesOf df nm := by
    rw [matchesOf, List.mem_filter]
    refine ⟨hr, ?_⟩
    simp only [decide_eq_true_eq, hcell, Option.map_some']
    rw [← hnm, toLowerS_idem]
  exact List.ne_nil_of_mem hrm

theorem find_institution_all_zero (t : Str) (il : List Str)
    (hf : List.find? (fun inst => phase1Accepts (normalizeText t) inst) il = none)
    (hz : ∀ i ∈ il, phase2Score (normalizeText t) i = 0) :
    find_institution t il = (none, 0) := by
  simp only [find_institution, hf, phase2Best_all_zero _ _ hz]
  norm_num

-- ===== Claim C2 =====

/-- Claim C2, counterexample: the transcript stage runs and its matcher
call scores 50 (below threshold, no name), yet the returned minimal
record carries the source label `No match` — not the stage label
`Transcript` — and score 0 — not the best observed score 50 — because
the code only assigns `source` and `match_score` when a stage matches. -/
theorem C2_counterexample :
    process_student_files (fun _ => S "alpha") (some (S "t")) none [] ⟨[], []⟩ [S "alpha beta"] =
      .ok (some (.minimal (S "alpha") (S "No match") 0)) ∧
    (find_institution (S "alpha") [S "alpha beta"]).2 = 50 ∧ (50 : ℚ) ≠ 0 := by
  have h1 : termsCount (S "alpha beta") = 2 := by decide
  have h2 : presentCount (normalizeText (S "alpha")) (S "alpha beta") = 1 := by decide
  have h3 : orderedFlag (normalizeText (S "alpha")) (S "alpha beta") = false := by decide
  have hsc : phase2Score (normalizeText (S "alpha")) (S "alpha beta") = 50 := by
    simp only [phase2Score, completenessScore, orderedScore, h1, h2, h3]
    norm_num
  have hfp : List.find? (fun inst => phase1Accepts (normalizeText (S "alpha")) inst)
      [S "alpha beta"] = none := by decide
  have hb : phase2Best (normalizeText (S "alpha")) [S "alpha beta"] =
      (some (S "alpha beta"), 50) := by
    simp only [phase2Best, List.foldl_cons, List.foldl_nil, hsc]
    rw [if_pos (by norm_num : (50 : ℚ) > 0)]
  have hfind : find_institution (S "alpha") [S "alpha beta"] = (none, 50) := by
    simp only [find_institution, hfp, hb]
    norm_num
  refine ⟨?_, by rw [hfind], by norm_num⟩
  simp only [process_student_files]
  rw [finalState_no_match (fun _ => S "alpha") (some (S "t")) none [] [S "alpha beta"]
    (fun p => by show (find_institution (S "alpha") [S "alpha beta"]).1 = none; rw [hfind])]
  rfl

/-- Claim C2, amended: when no stage yields a match, the orchestrator
returns the minimal record whose raw text is the text extracted from the
last stage attempted (the last reference letter, else the CV, else the
transcript, else empty), whose source label is always `No match` (never
the label of the stage that last ran), and whose score is always 0 (not
the best score observed across stages). -/
theorem C2_no_match_minimal_record (extract : Str → Str) (tp cp : Option Str)
    (rps : List Str) (df : DataFrame) (il : List Str)
    (h : ∀ p, (find_institution (extract p) il).1 = none) :
    process_student_files extract tp cp rps df il =
      .ok (some (.minimal (lastAttemptedText extract tp cp rps) (S "No match") 0)) := by
  simp only [process_student_files]
  rw [finalState_no_match extract tp cp rps il h]
  rfl

/-- Witness for `C2_no_match_minimal_record` at a concrete input: text
`qq` never matches the single candidate `alphabet`. -/
theorem C2_no_match_minimal_record_witness :
    process_student_files (fun _ => S "qq") (some (S "t")) (some (S "c")) [S "r1", S "r2"]
      ⟨[], []⟩ [S "alphabet"] =
      .ok (some (.minimal (S "qq") (S "No match") 0)) :=
  C2_no_match_minimal_record (fun _ => S "qq") (some (S "t")) (some (S "c")) [S "r1", S "r2"]
    ⟨[], []⟩ [S "alphabet"]
    (fun p => by
      rw [find_institution_all_zero (S "qq") [S "alphabet"] (by decide) ?_]
      intro i hi
      have hi' : i = S "alphabet" := by simpa using hi
      subst hi'
      simp only [phase2Score, completenessScore, orderedScore,
        show termsCount (S "alphabet") = 1 from by decide,
        show presentCount (normalizeText (S "qq")) (S "alphabet") = 0 from by decide,
        show orderedFlag (normalizeText (S "qq")) (S "alphabet") = false from by decide]
      norm_num)

-- ===== Claim C3 =====

/-- Claim C3, counterexample: with a candidate list not derived from the
table (the candidate `zeta` has no table row), a matched transcript makes
the ranking lookup return no row and `process_student_files` returns
Python `None` — the caller receives NO record at all, with no source
label and no score, although no exception is raised. -/
theorem C3_counterexample :
    process_student_files (fun _ => S "zeta") (some (S "t")) none [] ⟨[nameCol], []⟩ [S "zeta"] =
      .ok none := by
  rfl

/-- Claim C3, amended: whenever the candidate list is the one derived
from the reference table by the loader, the orchestrator always returns
an actual record (never `None` and never an exception), and that record
carries a source label and a score; failure states are represented as
data inside the record. -/
theorem C3_always_returns_record (extract : Str → Str) (tp cp : Option Str) (rps : List Str)
    (df : DataFrame) (il : List Str)
    (hinit : init_ranking_data df = .ok (df, il)) :
    ∃ r, process_student_files extract tp cp rps df il = .ok (some r) ∧ hasSourceAndScore r := by
  have hc : nameCol ∈ df.columns := loader_columns df il hinit
  cases hm : (finalState extract tp cp rps il).matched_name with
  | none =>
    simp only [process_student_files]
    rw [hm]
    exact ⟨_, rfl, True.intro⟩
  | some nm =>
    have hmem : nm ∈ il := (finalState_inv extract tp cp rps il).1 nm hm
    have hsrc : (finalState extract tp cp rps il).source.isSome = true :=
      (finalState_inv extract tp cp rps il).2 (by rw [hm]; rfl)
    have hmat : matchesOf df nm ≠ [] := loader_match_nonempty df il nm hinit hmem
    cases hmo : matchesOf df nm with
    | nil => exact absurd hmo hmat
    | cons r0 rest =>
      simp only [process_student_files]
      rw [hm]
      simp only [lookup_matches_cons df nm (some (finalState extract tp cp rps il).raw_text)
        r0 rest hc hmo]
      exact ⟨_, rfl, hsrc⟩

/-- Witness for `C3_always_returns_record` at a concrete input. -/
theorem C3_always_returns_record_witness :
    ∃ r, process_student_files (fun _ => S "zeta") (some (S "t")) none [] dfZeta [S "zeta"] =
      .ok (some r) ∧ hasSourceAndScore r :=
  C3_always_returns_record (fun _ => S "zeta") (some (S "t")) none [] dfZeta [S "zeta"] rfl

-- ===== Claim C6 =====

/-- Claim C6, confirmed: when the candidate list comes from the loader,
every name the matcher can return is shared case-insensitively by at
least one table row (so the ranking lookup cannot come up empty); and in
general, whenever the final orchestrator state carries a matched name
whose lookup nevertheless yields no row, the orchestrator returns Python
`None` — it returns normally rather than raising. -/
theorem C6_match_resolvable (df : DataFrame) (il : List Str) (t nm : Str)
    (hinit : init_ranking_data df = .ok (df, il))
    (hm : (find_institution t il).1 = some nm) :
    matchesOf df nm ≠ [] ∧
    (∀ (extract : Str → Str) (tp cp : Option Str) (rps : List Str) (df2 : DataFrame)
      (il2 : List Str) (nm2 : Str),
      (finalState extract tp cp rps il2).matched_name = some nm2 →
      lookup_institution_ranking nm2 df2 (some (finalState extract tp cp rps il2).raw_text) =
        .ok none →
      process_student_files extract tp cp rps df2 il2 = .ok none) := by
  constructor
  · exact loader_match_nonempty df il nm hinit (find_institution_fst_mem t il nm hm)
  · intro extract tp cp rps df2 il2 nm2 hm2 hlk
    simp only [process_student_files]
    rw [hm2]
    simp only [hlk]
    rfl

/-- Witness for `C6_match_resolvable` at a concrete input. -/
theorem C6_match_resolvable_witness : matchesOf dfZeta (S "zeta") ≠ [] :=
  (C6_match_resolvable dfZeta [S "zeta"] (S "zeta") (S "zeta") rfl rfl).1
